import Mathlib

/-!
Verification of the figma-icon-sync scripts (`optimize_svg.py`, `browse_icons.py`).

Strings are modelled as `List Char`; Python's `re.sub`, `str.replace`,
`str.lower`, `str.capitalize`, `str.strip` and the specific regular
expressions used by the scripts are embedded as executable scanners over
`List Char`.  Character classes follow Python's ASCII behaviour (the inputs
of interest are ASCII).  Global substitution scanners take an explicit fuel
argument (instantiated with the input length) so that every definition is
structurally recursive and evaluates by kernel reduction.
-/

set_option maxRecDepth 4000

namespace IconSync

/-! ### Character classes (ASCII model of Python's `str` / `re` behaviour) -/

/-- Python `\s` on ASCII: space, tab, newline, carriage return, vertical tab, form feed. -/
def pyIsSpace (c : Char) : Bool :=
  decide (c.toNat = 32 ∨ c.toNat = 9 ∨ c.toNat = 10 ∨ c.toNat = 13 ∨ c.toNat = 11 ∨ c.toNat = 12)

def isAsciiLower (c : Char) : Bool := decide (97 ≤ c.toNat ∧ c.toNat ≤ 122)

def isAsciiUpper (c : Char) : Bool := decide (65 ≤ c.toNat ∧ c.toNat ≤ 90)

def isAsciiAlpha (c : Char) : Bool := isAsciiLower c || isAsciiUpper c

def isAsciiDigit (c : Char) : Bool := decide (48 ≤ c.toNat ∧ c.toNat ≤ 57)

/-- Python `\w` on ASCII: letters, digits, underscore. -/
def isWordChar (c : Char) : Bool := isAsciiAlpha c || isAsciiDigit c || decide (c.toNat = 95)

/-- The character class `[-_\s]` used by the variant patterns and by `re.split(r'[-_\s]+', ...)`. -/
def isVarDelim (c : Char) : Bool := decide (c.toNat = 45 ∨ c.toNat = 95) || pyIsSpace c

/-- The character class `[-_]` (used by `strip('-_')` and the icon-name patterns). -/
def isDashUnder (c : Char) : Bool := decide (c.toNat = 45 ∨ c.toNat = 95)

/-- ASCII `str.lower` on one character. -/
def pyToLower (c : Char) : Char :=
  if 65 ≤ c.toNat ∧ c.toNat ≤ 90 then Char.ofNat (c.toNat + 32) else c

/-- ASCII `str.upper` on one character. -/
def pyToUpper (c : Char) : Char :=
  if 97 ≤ c.toNat ∧ c.toNat ≤ 122 then Char.ofNat (c.toNat - 32) else c

def pyLower (l : List Char) : List Char := l.map pyToLower

def pyUpper (l : List Char) : List Char := l.map pyToUpper

def nlC : Char := '\n'

def spC : Char := ' '

def dashC : Char := '-'

def slashC : Char := '/'

def quoteC : Char := '"'

/-! ### Generic string helpers (Python `in`, `str.replace`, `str.strip`) -/

/-- Python's substring test `pat in l`. -/
def containsSub (pat : List Char) : List Char → Bool
  | [] => pat.isEmpty
  | c :: cs => pat.isPrefixOf (c :: cs) || containsSub pat cs

/-- Index of the first occurrence of `pat` (Python `str.find` when it succeeds). -/
def findSub (pat : List Char) : List Char → Option Nat
  | [] => if pat.isEmpty then some 0 else none
  | c :: cs => if pat.isPrefixOf (c :: cs) then some 0 else (findSub pat cs).map (· + 1)

/-- Fuelled worker for Python `str.replace` (all occurrences, left to right,
non-overlapping, replacement not rescanned).  With `fuel ≥` the input length
and a nonempty pattern the fuel never runs out. -/
def pyReplaceAux (pat repl : List Char) : Nat → List Char → List Char
  | _, [] => []
  | 0, l => l
  | fuel + 1, c :: cs =>
    if pat.isPrefixOf (c :: cs) then repl ++ pyReplaceAux pat repl fuel (List.drop (pat.length - 1) cs)
    else c :: pyReplaceAux pat repl fuel cs

/-- Python `l.replace(pat, repl)`. -/
def pyReplace (pat repl l : List Char) : List Char := pyReplaceAux pat repl l.length l

/-- Python `str.strip()` (whitespace from both ends). -/
def pyStrip (l : List Char) : List Char :=
  ((l.dropWhile pyIsSpace).reverse.dropWhile pyIsSpace).reverse

/-- Python `str.strip('-_')`. -/
def stripDashUnder (l : List Char) : List Char :=
  ((l.dropWhile isDashUnder).reverse.dropWhile isDashUnder).reverse

/-- Generic `re.sub` scanner: at each position, `tm` reports the length of the
(deterministic leftmost) match together with its replacement; on a match the
scan resumes after the matched span.  Every matcher used below matches at
least one character, so with `fuel ≥` input length the fuel never runs out. -/
def subScan (tm : List Char → Option (Nat × List Char)) : Nat → List Char → List Char
  | _, [] => []
  | 0, l => l
  | fuel + 1, c :: cs =>
    match tm (c :: cs) with
    | some (n, repl) => repl ++ subScan tm fuel (List.drop (n - 1) cs)
    | none => c :: subScan tm fuel cs

def subAll (tm : List Char → Option (Nat × List Char)) (l : List Char) : List Char :=
  subScan tm l.length l

/-! ### `to_pascal_case` (optimize_svg.py, lines 90-113) -/

def litSvgExt : List Char := ".svg".data

def litPngExt : List Char := ".png".data

def litJpgExt : List Char := ".jpg".data

/-- `re.sub(r'\.(svg|png|jpg)$', '', name, flags=re.IGNORECASE)`.  The anchor
`$` matches at the end of the string or just before a trailing newline. -/
def extStrip (l : List Char) : List Char :=
  let low := pyLower l
  if litSvgExt.isSuffixOf low || litPngExt.isSuffixOf low || litJpgExt.isSuffixOf low then
    l.take (l.length - 4)
  else if (litSvgExt ++ [nlC]).isSuffixOf low || (litPngExt ++ [nlC]).isSuffixOf low ||
      (litJpgExt ++ [nlC]).isSuffixOf low then
    l.take (l.length - 5) ++ [nlC]
  else l

/-- Worker for `re.split(r'[-_\s]+', name)`: `inRun` records whether the scan
is inside a delimiter run, `acc` holds the current token reversed. -/
def splitDelimsAux (inRun : Bool) (acc : List Char) : List Char → List (List Char)
  | [] => if inRun then [[]] else [acc.reverse]
  | c :: cs =>
    if isVarDelim c then
      if inRun then splitDelimsAux true [] cs
      else acc.reverse :: splitDelimsAux true [] cs
    else
      if inRun then splitDelimsAux false [c] cs
      else splitDelimsAux false (c :: acc) cs

/-- `re.split(r'[-_\s]+', name)` (runs of delimiters split once; leading and
trailing runs produce empty tokens, as in Python). -/
def splitDelims (l : List Char) : List (List Char) := splitDelimsAux false [] l

/-- `re.sub(r'([a-z])([A-Z])', r'\1 \2', word)`: insert a space at every
lowercase-to-uppercase boundary, scanning left to right, non-overlapping. -/
def camelSub : List Char → List Char
  | c1 :: c2 :: rest =>
    if isAsciiLower c1 && isAsciiUpper c2 then c1 :: spC :: c2 :: camelSub rest
    else c1 :: camelSub (c2 :: rest)
  | l => l

/-- Worker for Python `str.split()` (split on whitespace runs, dropping empties). -/
def wsSplitAux (acc : List Char) : List Char → List (List Char)
  | [] => if acc.isEmpty then [] else [acc.reverse]
  | c :: cs =>
    if pyIsSpace c then
      if acc.isEmpty then wsSplitAux [] cs
      else acc.reverse :: wsSplitAux [] cs
    else wsSplitAux (c :: acc) cs

/-- Python `str.split()` with no argument. -/
def wsSplit (l : List Char) : List (List Char) := wsSplitAux [] l

/-- Python `str.capitalize()`: first character uppercased, the rest lowercased. -/
def pyCapitalize : List Char → List Char
  | [] => []
  | c :: cs => pyToUpper c :: cs.map pyToLower

/-- `to_pascal_case` (optimize_svg.py lines 90-113): strip a known extension,
split on delimiter runs, split camel-case boundaries, capitalize every
nonempty token and join. -/
def to_pascal_case (name : List Char) : List Char :=
  let n1 := extStrip name
  let words := splitDelims n1
  let expanded := (words.map (fun w => wsSplit (camelSub w))).flatten
  ((expanded.filter (fun w => !w.isEmpty)).map pyCapitalize).flatten

/-! ### `determine_variant` (optimize_svg.py, lines 116-144) and
`check_outlined_variant` (browse_icons.py, lines 167-178) -/

def litOutline : List Char := "outline".data

def litLine : List Char := "line".data

def litStroke : List Char := "stroke".data

/-- The regex anchor `$` (no MULTILINE): end of input or just before a final newline. -/
def endsAt : List Char → Bool
  | [] => true
  | [c] => decide (c.toNat = 10)
  | _ => false

/-- Try `lit` + (optional `d` when `dOpt`) + `$` at this position,
case-insensitively; greedy `d?` prefers consuming the `d`.  Returns the
number of characters matched. -/
def tryCoreVar (lit : List Char) (dOpt : Bool) (l : List Char) : Option Nat :=
  if lit.isPrefixOf (pyLower l) then
    let rest := l.drop lit.length
    if dOpt then
      match rest with
      | c :: rest2 =>
        if (pyToLower c).toNat = 100 && endsAt rest2 then some (lit.length + 1)
        else if endsAt rest then some lit.length
        else none
      | [] => some lit.length
    else
      if endsAt rest then some lit.length else none
  else none

/-- Match `[-_\s]?lit(d?)$` at this position (the optional-delimiter pattern
family of `determine_variant`).  Greedy `[-_\s]?` prefers consuming a
delimiter; since `lit` never starts with a delimiter the two options never
both apply. -/
def matchVarAt (lit : List Char) (dOpt : Bool) : List Char → Option Nat
  | [] => tryCoreVar lit dOpt []
  | c :: cs =>
    if isVarDelim c then (tryCoreVar lit dOpt cs).map (· + 1)
    else tryCoreVar lit dOpt (c :: cs)

/-- `re.search` for `[-_\s]?lit(d?)$`: true if the pattern matches at some position. -/
def searchVar (lit : List Char) (dOpt : Bool) : List Char → Bool
  | [] => (matchVarAt lit dOpt []).isSome
  | c :: cs => (matchVarAt lit dOpt (c :: cs)).isSome || searchVar lit dOpt cs

/-- Match `[-_\s]lit(d?)$` (required delimiter, the pattern family of
`check_outlined_variant`) at this position. -/
def matchVarReqAt (lit : List Char) (dOpt : Bool) : List Char → Option Nat
  | [] => none
  | c :: cs =>
    if isVarDelim c then (tryCoreVar lit dOpt cs).map (· + 1) else none

/-- `re.search` for `[-_\s]lit(d?)$`. -/
def searchVarReq (lit : List Char) (dOpt : Bool) : List Char → Bool
  | [] => false
  | c :: cs => (matchVarReqAt lit dOpt (c :: cs)).isSome || searchVarReq lit dOpt cs

/-- Deletion matcher for `re.sub` of a `[-_\s]?lit(d?)$` pattern. -/
def tryVarPat (lit : List Char) (dOpt : Bool) (l : List Char) : Option (Nat × List Char) :=
  (matchVarAt lit dOpt l).map (fun n => (n, []))

/-- `determine_variant` (optimize_svg.py lines 116-144): try the four
outlined patterns in order; on the first whose search succeeds, delete the
match from the original name; always `strip('-_')` the result. -/
def determine_variant (name : List Char) : List Char × Bool :=
  if searchVar litOutline true name then
    (stripDashUnder (subAll (tryVarPat litOutline true) name), true)
  else if searchVar litOutline false name then
    (stripDashUnder (subAll (tryVarPat litOutline false) name), true)
  else if searchVar litLine false name then
    (stripDashUnder (subAll (tryVarPat litLine false) name), true)
  else if searchVar litStroke false name then
    (stripDashUnder (subAll (tryVarPat litStroke false) name), true)
  else (stripDashUnder name, false)

/-- The pattern `^outline[-_\s]` of `check_outlined_variant`. -/
def leadingOutlineTok (name : List Char) : Bool :=
  litOutline.isPrefixOf (pyLower name) &&
    (match name.drop 7 with
     | c :: _ => isVarDelim c
     | [] => false)

/-- `check_outlined_variant` (browse_icons.py lines 167-178): delimiter-required
suffix patterns plus the leading `outline` pattern. -/
def check_outlined_variant (name : List Char) : Bool :=
  searchVarReq litOutline true name || searchVarReq litOutline false name ||
  searchVarReq litLine false name || searchVarReq litStroke false name ||
  leadingOutlineTok name

/-- The guard of `determine_variant`'s loop: some optional-delimiter outlined
pattern matches. -/
def matchesAnyVariantPat (name : List Char) : Bool :=
  searchVar litOutline true name || searchVar litOutline false name ||
  searchVar litLine false name || searchVar litStroke false name

/-- The delimiter-required suffix pattern family shared by the two scripts. -/
def hasDelimOutlinedSuffix (name : List Char) : Bool :=
  searchVarReq litOutline true name || searchVarReq litOutline false name ||
  searchVarReq litLine false name || searchVarReq litStroke false name

/-! ### `optimize_svg` (optimize_svg.py, lines 24-87) -/

def litViewBoxWord : List Char := "viewBox".data

def litViewBoxEq : List Char := "viewBox=\"".data

def litWidthEq : List Char := "width=".data

def litWidthEqQ : List Char := "width=\"".data

def litHeightEq : List Char := "height=".data

def litHeightEqQ : List Char := "height=\"".data

def litFillEq : List Char := "fill=".data

def litSvgSp : List Char := "<svg ".data

def litSvgVB : List Char := "<svg viewBox=\"0 0 24 24\" ".data

def litSvgW : List Char := "<svg width=\"24\" ".data

def litSvgH : List Char := "<svg height=\"24\" ".data

def litSvgFill : List Char := "<svg fill=\"currentColor\" ".data

def replViewBox : List Char := "viewBox=\"0 0 24 24\"".data

def replWidth : List Char := "width=\"24\"".data

def replHeight : List Char := "height=\"24\"".data

def litDataDash : List Char := "data-".data

def litEqQ : List Char := "=\"".data

def litXmlOpen : List Char := "<?xml".data

def litDoctypeOpen : List Char := "<!DOCTYPE".data

def litCommentOpen : List Char := "<!--".data

def litCommentClose : List Char := "-->".data

def litGOpen : List Char := "<g".data

def litGClose : List Char := "</g>".data

def litXmlnsFigma : List Char := "xmlns:figma=\"".data

def litIdEqQ : List Char := "id=\"".data

def litGtLt : List Char := "><".data

/-- Match `lit"…"`-style spans: the literal `lit` (which ends in `="`)
followed by a greedy `[^"]*` and the closing quote.  Returns the length. -/
def matchLitQuoted (lit : List Char) (l : List Char) : Option Nat :=
  if lit.isPrefixOf l then
    let rest := l.drop lit.length
    let inner := rest.takeWhile (fun c => c != quoteC)
    if inner.length < rest.length then some (lit.length + inner.length + 1) else none
  else none

def tryViewBoxA (l : List Char) : Option (Nat × List Char) :=
  (matchLitQuoted litViewBoxEq l).map (fun n => (n, replViewBox))

def tryWidthA (l : List Char) : Option (Nat × List Char) :=
  (matchLitQuoted litWidthEqQ l).map (fun n => (n, replWidth))

def tryHeightA (l : List Char) : Option (Nat × List Char) :=
  (matchLitQuoted litHeightEqQ l).map (fun n => (n, replHeight))

/-- Wrap a core matcher with a leading greedy `\s*`; the whole match is deleted. -/
def tryWsCore (core : List Char → Option Nat) (l : List Char) : Option (Nat × List Char) :=
  let ws := l.takeWhile pyIsSpace
  match core (l.drop ws.length) with
  | some n => some (ws.length + n, [])
  | none => none

/-- Core of `data-[a-zA-Z-]*="[^"]*"`. -/
def coreDataAttr (l : List Char) : Option Nat :=
  if litDataDash.isPrefixOf l then
    let rest := l.drop 5
    let nm := rest.takeWhile (fun c => isAsciiAlpha c || decide (c.toNat = 45))
    match matchLitQuoted litEqQ (rest.drop nm.length) with
    | some n => some (5 + nm.length + n)
    | none => none
  else none

/-- `<\?xml[^>]*\?>\s*`: the first `>` after `<?xml` must be preceded by `?`
(greedy `[^>]*` with backtracking admits no other match), then greedy `\s*`. -/
def tryXmlDecl (l : List Char) : Option (Nat × List Char) :=
  if litXmlOpen.isPrefixOf l then
    let rest := l.drop 5
    let run := rest.takeWhile (fun c => c != '>')
    if run.length < rest.length then
      match run.reverse with
      | q :: _ =>
        if q.toNat = 63 then
          let ws := (rest.drop (run.length + 1)).takeWhile pyIsSpace
          some (5 + run.length + 1 + ws.length, [])
        else none
      | [] => none
    else none
  else none

/-- `<!DOCTYPE[^>]*>\s*`. -/
def tryDoctype (l : List Char) : Option (Nat × List Char) :=
  if litDoctypeOpen.isPrefixOf l then
    let rest := l.drop 9
    let run := rest.takeWhile (fun c => c != '>')
    if run.length < rest.length then
      let ws := (rest.drop (run.length + 1)).takeWhile pyIsSpace
      some (9 + run.length + 1 + ws.length, [])
    else none
  else none

/-- `<!--.*?-->` with DOTALL: lazy `.*?` reaches the first `-->`. -/
def tryComment (l : List Char) : Option (Nat × List Char) :=
  if litCommentOpen.isPrefixOf l then
    match findSub litCommentClose (l.drop 4) with
    | some k => some (4 + k + 3, [])
    | none => none
  else none

/-- `<g[^>]*>\s*</g>`: greedy `[^>]*` up to the first `>`, greedy `\s*`,
then the literal `</g>` must follow directly. -/
def tryEmptyGroup (l : List Char) : Option (Nat × List Char) :=
  if litGOpen.isPrefixOf l then
    let rest := l.drop 2
    let run := rest.takeWhile (fun c => c != '>')
    if run.length < rest.length then
      let after := rest.drop (run.length + 1)
      let ws := after.takeWhile pyIsSpace
      if litGClose.isPrefixOf (after.drop ws.length) then
        some (2 + run.length + 1 + ws.length + 4, [])
      else none
    else none
  else none

/-- `\n\s*\n` → `\n`: greedy `\s*` backtracks to the last newline inside the
whitespace run following the first newline. -/
def tryBlankLines (l : List Char) : Option (Nat × List Char) :=
  match l with
  | c :: cs =>
    if c.toNat = 10 then
      let run := cs.takeWhile pyIsSpace
      match run.reverse.findIdx? (fun x => x.toNat = 10) with
      | some j => some (1 + (run.length - j), [nlC])
      | none => none
    else none
  | [] => none

/-- `>\s+<` → `><`. -/
def tryInterTag (l : List Char) : Option (Nat × List Char) :=
  match l with
  | c :: cs =>
    if c.toNat = 62 then
      let ws := cs.takeWhile pyIsSpace
      if ws.isEmpty then none
      else
        match cs.drop ws.length with
        | d :: _ => if d.toNat = 60 then some (1 + ws.length + 1, litGtLt) else none
        | [] => none
    else none
  | [] => none

/-- The first three rewrites of `optimize_svg` (lines 34-53): force or inject
`viewBox`, `width`, `height`.  Injection is `str.replace` of the literal
`"<svg "`. -/
def svgSizePhase (l : List Char) : List Char :=
  let s1 := if containsSub litViewBoxWord l then subAll tryViewBoxA l
    else pyReplace litSvgSp litSvgVB l
  let s2 := if containsSub litWidthEq s1 then subAll tryWidthA s1
    else pyReplace litSvgSp litSvgW s1
  if containsSub litHeightEq s2 then subAll tryHeightA s2
  else pyReplace litSvgSp litSvgH s2

/-- `optimize_svg` (optimize_svg.py lines 24-87): the full ordered rewrite
pipeline. -/
def optimize_svg (l : List Char) : List Char :=
  let s3 := svgSizePhase l
  let s4 := subAll (tryWsCore coreDataAttr) s3
  let s5 := subAll tryXmlDecl s4
  let s6 := subAll tryDoctype s5
  let s7 := subAll tryComment s6
  let s8 := subAll tryEmptyGroup s7
  let s9 := subAll (tryWsCore (matchLitQuoted litXmlnsFigma)) s8
  let s10 := subAll (tryWsCore (matchLitQuoted litIdEqQ)) s9
  let s11 := subAll tryBlankLines s10
  let s12 := subAll tryInterTag s11
  let s13 := pyStrip s12
  if containsSub litFillEq s13 then s13 else pyReplace litSvgSp litSvgFill s13

/-! ### `process_icon_file` naming (optimize_svg.py, lines 147-211).
File-system access is an external collaborator; the embedded function covers
the validation, normalization and naming logic, returning `none` for the
`ValueError` raised on content without a `<svg` marker. -/

def litLtSvg : List Char := "<svg".data

def litOutlinedSvg : List Char := "Outlined.svg".data

def output_name (stem : List Char) (force : Option Bool) : List Char :=
  let bv := determine_variant stem
  let is_out := force.getD bv.2
  let pascal := to_pascal_case bv.1
  if is_out then pascal ++ litOutlinedSvg else pascal ++ litSvgExt

def process_icon_file (content stem : List Char) (force : Option Bool) :
    Option (List Char × List Char) :=
  if containsSub litLtSvg (pyLower content) then
    some (optimize_svg content, output_name stem force)
  else none

/-! ### `is_icon_node` (browse_icons.py, lines 136-164) -/

def litPAGE : List Char := "PAGE".data

def litDOCUMENT : List Char := "DOCUMENT".data

def litSECTION : List Char := "SECTION".data

def litFRAME : List Char := "FRAME".data

def litCOMPONENT : List Char := "COMPONENT".data

def litCOMPONENT_SET : List Char := "COMPONENT_SET".data

def litINSTANCE : List Char := "INSTANCE".data

def litIcon : List Char := "icon".data

def litIc : List Char := "ic".data

def litButton : List Char := "button".data

def litInputW : List Char := "input".data

def litCard : List Char := "card".data

def litModal : List Char := "modal".data

def litDialog : List Char := "dialog".data

def litForm : List Char := "form".data

/-- `^lit[-_]` on an already-lowered name. -/
def startsLitDelim (lit : List Char) (l : List Char) : Bool :=
  lit.isPrefixOf l &&
    (match l.drop lit.length with
     | c :: _ => isDashUnder c
     | [] => false)

/-- `re.search` of `[-_]lit$` on an already-lowered name. -/
def searchDelimLitEnd (lit : List Char) : List Char → Bool
  | [] => false
  | c :: cs =>
    (isDashUnder c && lit.isPrefixOf cs && endsAt (cs.drop lit.length)) ||
      searchDelimLitEnd lit cs

/-- `^\d+[-_]` on an already-lowered name. -/
def startsDigitsDelim (l : List Char) : Bool :=
  let ds := l.takeWhile isAsciiDigit
  !ds.isEmpty &&
    (match l.drop ds.length with
     | c :: _ => isDashUnder c
     | [] => false)

/-- `is_icon_node` (browse_icons.py lines 136-164). -/
def is_icon_node (name ntype : List Char) : Bool :=
  let tU := pyUpper ntype
  if tU == litPAGE || tU == litDOCUMENT || tU == litSECTION then false
  else
    let ln := pyLower name
    if startsLitDelim litIcon ln || searchDelimLitEnd litIcon ln ||
        startsLitDelim litIc ln || searchDelimLitEnd litIc ln ||
        startsDigitsDelim ln then true
    else
      (tU == litCOMPONENT || tU == litCOMPONENT_SET || tU == litINSTANCE) &&
        !(containsSub litButton ln || containsSub litInputW ln || containsSub litCard ln ||
          containsSub litModal ln || containsSub litDialog ln || containsSub litForm ln)

/-! ### Icon records and the two extractors (browse_icons.py, lines 25-133) -/

/-- `IconInfo` (browse_icons.py lines 25-32); the Python `section` field is
named `sect` here because `section` is a Lean keyword. -/
structure IconInfo where
  name : List Char
  node_id : List Char
  sect : List Char
  is_outlined : Bool
  path : List Char
  deriving DecidableEq

/-- `name="` with the opening quote. -/
def litNameEqQ : List Char := "name=\"".data

/-- Case-insensitive literal prefix test (`lit` is given lowercase). -/
def ciIsPrefixOf (lit l : List Char) : Bool := lit.isPrefixOf (pyLower l)

/-- Candidates for `[^>]*\s+lit"([^"]+)"` scanning left to right inside the
current non-`>` region: pairs of (captured group, rest after the closing
quote).  The greedy `[^>]*` makes the regex prefer the LAST candidate, with
backtracking to earlier ones. -/
def attrCandsAux (lit : List Char) : List Char → List (List Char × List Char)
  | [] => []
  | c :: cs =>
    if c.toNat = 62 then []
    else
      let here :=
        if pyIsSpace c && ciIsPrefixOf lit cs then
          let afterLit := cs.drop lit.length
          let inner := afterLit.takeWhile (fun x => x != quoteC)
          if !inner.isEmpty && inner.length < afterLit.length then
            [(inner, afterLit.drop (inner.length + 1))]
          else []
        else []
      here ++ attrCandsAux lit cs

def firstSome {α β : Type} (f : α → Option β) : List α → Option β
  | [] => none
  | a :: as => match f a with
    | some b => some b
    | none => firstSome f as

/-- One match attempt of the node pattern
`<(\w+)[^>]*\s+name="([^"]+)"[^>]*\s+id="([^"]+)"` (IGNORECASE) at the start
of `l`.  Returns (tag, name, id, rest after the match).  The greedy `[^>]*`
parts try the latest `…\s+name="` / `…\s+id="` positions first and backtrack
to earlier ones. -/
def tryIconTag (l : List Char) : Option (List Char × List Char × List Char × List Char) :=
  match l with
  | c :: cs =>
    if c.toNat = 60 then
      let w := cs.takeWhile isWordChar
      if w.isEmpty then none
      else
        let nameCands := (attrCandsAux litNameEqQ (cs.drop w.length)).reverse
        firstSome (fun nc =>
          match (attrCandsAux litIdEqQ nc.2).reverse with
          | ic :: _ => some (w, nc.1, ic.1, ic.2)
          | [] => none) nameCands
    else none
  | [] => none

/-- Scan worker for `parse_xml_metadata` (browse_icons.py lines 99-133):
`finditer` over the node pattern, tracking the current section. -/
def xmlScanAux : Nat → List Char → List Char → List IconInfo
  | _, _, [] => []
  | 0, _, _ => []
  | fuel + 1, sct, c :: cs =>
    match tryIconTag (c :: cs) with
    | some (nt, nm, nid, rest) =>
      let tU := pyUpper nt
      if tU == litFRAME || tU == litPAGE || tU == litSECTION then
        xmlScanAux fuel nm rest
      else if is_icon_node nm nt then
        ⟨nm, nid, sct, check_outlined_variant nm, sct ++ slashC :: nm⟩ ::
          xmlScanAux fuel sct rest
      else xmlScanAux fuel sct rest
    | none => xmlScanAux fuel sct cs

/-- `parse_xml_metadata` (browse_icons.py lines 99-133). -/
def parse_xml_metadata (content : List Char) : List IconInfo :=
  xmlScanAux content.length [] content

/- The shape of values produced by `json.loads` as consumed by
`parse_json_metadata`: a dict contributes `name`/`type`/`id` (missing keys
default to the empty string, folded into the fields) and a `children` list;
every non-dict value is inert for the extractor.  The children are a mutual
inductive list (`PyJsonList`) so that the extractor below is structurally
recursive and evaluates by kernel reduction. -/
mutual
inductive PyJson where
  | dict (name ntype nid : List Char) (children : PyJsonList)
  | nondict
inductive PyJsonList where
  | nil
  | cons (j : PyJson) (js : PyJsonList)
end

/- `parse_json_metadata` (browse_icons.py lines 60-96): pre-order walk of a
decoded value, threading the current path and section; `parse_json_children`
is the `for child in children` loop. -/
mutual
def parse_json_metadata : PyJson → List Char → List Char → List IconInfo
  | .nondict, _, _ => []
  | .dict name ntype nid children, path, sct =>
    let csect := if ntype == litPAGE || ntype == litFRAME || ntype == litSECTION then name
      else sct
    let cpath := if path.isEmpty then name else path ++ slashC :: name
    let here := if is_icon_node name ntype then
        [(⟨name, nid, csect, check_outlined_variant name, cpath⟩ : IconInfo)]
      else []
    here ++ parse_json_children children cpath csect
def parse_json_children : PyJsonList → List Char → List Char → List IconInfo
  | .nil, _, _ => []
  | .cons j js, path, sct =>
    parse_json_metadata j path sct ++ parse_json_children js path sct
end

/-- `parse_figma_metadata` (browse_icons.py lines 35-57).  The call to the
external library `json.loads(content)` is modelled by the `decoded` argument:
`none` stands for a `json.JSONDecodeError` (the only exception path), and
`some j` for a successful decode of `content` to the value `j`. -/
def parse_figma_metadata (decoded : Option PyJson) (content : List Char) : List IconInfo :=
  match decoded with
  | some j => parse_json_metadata j [] []
  | none => parse_xml_metadata content

/-! ### Concrete inputs used by the theorems below -/

/-- Hyphen-joined token list, used to quantify over delimiter-separated names. -/
def joinHyphen : List (List Char) → List Char
  | [] => []
  | [t] => t
  | t :: ts => t ++ dashC :: joinHyphen ts

/-- A document whose nested empty groups need two passes of the empty-group rewrite. -/
def exD1 : List Char :=
  "<svg viewBox=\"0 0 24 24\" width=\"24\" height=\"24\" fill=\"none\"><g><g></g></g></svg>".data

/-- A document with no occurrence of `"<svg "` (and no `fill=`): comment removal
creates `"<svg "` and the final default-fill injection then fires. -/
def exD10 : List Char := "<svg<!--x--> height=\"5\"></svg>".data

/-- A tagged element that appears before any section-like element. -/
def exXml6 : List Char := "<component name=\"icon-home\" id=\"1:1\">".data

/-- The record extracted from `exXml6`: empty section, path with a leading slash. -/
def exRec6 : IconInfo := ⟨ "icon-home".data, "1:1".data, [], false, "/icon-home".data⟩

/-- Valid JSON (an array of four strings) that is not an object, whose raw text
nevertheless matches the tag pattern of the tag-based extractor. -/
def exJson7 : List Char := "[\"<COMPONENT name=\",\"x\",\"w id=\",\"1\"]".data

/-- The tree `PAGE "Icons"` with one `COMPONENT "icon-home"` child of id `1:1`. -/
def exTree8 : PyJson :=
  PyJson.dict ( "Icons".data) ( "PAGE".data) []
    (.cons (.dict ( "icon-home".data) ( "COMPONENT".data) ( "1:1".data) .nil) .nil)

/-- The single record extracted from `exTree8`. -/
def exRec8 : IconInfo :=
  ⟨ "icon-home".data, "1:1".data, "Icons".data, false, "Icons/icon-home".data⟩

/-- A minimal valid SVG document. -/
def exSvgDoc3 : List Char := "<svg viewBox=\"0 0 24 24\"></svg>".data

/-- The source identifier of the C3 scenario. -/
def exStem3 : List Char := "Home-Outlined".data

/-! ## Helper lemmas -/

theorem toNat_ofNat_small {n : Nat} (h : n < 55296) : (Char.ofNat n).toNat = n := by
  rw [Char.ofNat, dif_pos (Or.inl h)]
  rfl

theorem isAsciiLower_iff {c : Char} : isAsciiLower c = true ↔ 97 ≤ c.toNat ∧ c.toNat ≤ 122 := by
  simp [isAsciiLower]

theorem isAsciiUpper_iff {c : Char} : isAsciiUpper c = true ↔ 65 ≤ c.toNat ∧ c.toNat ≤ 90 := by
  simp [isAsciiUpper]

theorem pyToLower_of_lower {c : Char} (h : isAsciiLower c = true) : pyToLower c = c := by
  rw [isAsciiLower_iff] at h
  rw [pyToLower, if_neg (by omega)]

theorem pyToUpper_of_upper {c : Char} (h : isAsciiUpper c = true) : pyToUpper c = c := by
  rw [isAsciiUpper_iff] at h
  rw [pyToUpper, if_neg (by omega)]

theorem toNat_pyToUpper_of_lower {c : Char} (h : isAsciiLower c = true) :
    (pyToUpper c).toNat = c.toNat - 32 := by
  rw [isAsciiLower_iff] at h
  rw [pyToUpper, if_pos (by omega), toNat_ofNat_small (by omega)]

theorem upper_pyToUpper_of_lower {c : Char} (h : isAsciiLower c = true) :
    isAsciiUpper (pyToUpper c) = true := by
  rw [isAsciiUpper_iff, toNat_pyToUpper_of_lower h]
  rw [isAsciiLower_iff] at h
  omega

theorem lower_not_upper {c : Char} (h : isAsciiLower c = true) : isAsciiUpper c = false := by
  rw [isAsciiLower_iff] at h
  simp only [isAsciiUpper, decide_eq_false_iff_not]
  omega

theorem upper_not_lower {c : Char} (h : isAsciiUpper c = true) : isAsciiLower c = false := by
  rw [isAsciiUpper_iff] at h
  simp only [isAsciiLower, decide_eq_false_iff_not]
  omega

theorem lower_not_delim {c : Char} (h : isAsciiLower c = true) : isVarDelim c = false := by
  rw [isAsciiLower_iff] at h
  simp only [isVarDelim, pyIsSpace, Bool.or_eq_false_iff, decide_eq_false_iff_not]
  omega

theorem upper_not_delim {c : Char} (h : isAsciiUpper c = true) : isVarDelim c = false := by
  rw [isAsciiUpper_iff] at h
  simp only [isVarDelim, pyIsSpace, Bool.or_eq_false_iff, decide_eq_false_iff_not]
  omega

theorem lower_not_space {c : Char} (h : isAsciiLower c = true) : pyIsSpace c = false := by
  rw [isAsciiLower_iff] at h
  simp only [pyIsSpace, decide_eq_false_iff_not]
  omega

theorem upper_not_space {c : Char} (h : isAsciiUpper c = true) : pyIsSpace c = false := by
  rw [isAsciiUpper_iff] at h
  simp only [pyIsSpace, decide_eq_false_iff_not]
  omega

theorem lower_ne_dot {c : Char} (h : isAsciiLower c = true) : c.toNat ≠ 46 := by
  rw [isAsciiLower_iff] at h
  omega

theorem upper_ne_dot {c : Char} (h : isAsciiUpper c = true) : c.toNat ≠ 46 := by
  rw [isAsciiUpper_iff] at h
  omega

theorem pyToLower_eq_dot {c : Char} (h : pyToLower c = '.') : c.toNat = 46 := by
  rw [pyToLower] at h
  split at h
  · rename_i hc
    have := congrArg Char.toNat h
    rw [toNat_ofNat_small (by omega)] at this
    simp only [show ('.' : Char).toNat = 46 from rfl] at this
    omega
  · have := congrArg Char.toNat h
    simpa using this

/-! ### `containsSub` and `pyReplace` -/

theorem containsSub_cons_false {pat : List Char} {c : Char} {cs : List Char}
    (h : containsSub pat (c :: cs) = false) :
    pat.isPrefixOf (c :: cs) = false ∧ containsSub pat cs = false := by
  simpa [containsSub, Bool.or_eq_false_iff] using h

theorem pyReplaceAux_id (pat repl : List Char) :
    ∀ fuel l, containsSub pat l = false → pyReplaceAux pat repl fuel l = l := by
  intro fuel
  induction fuel with
  | zero =>
    intro l _
    cases l <;> rfl
  | succ n ih =>
    intro l h
    cases l with
    | nil => rfl
    | cons c cs =>
      obtain ⟨h1, h2⟩ := containsSub_cons_false h
      simp [pyReplaceAux, h1, ih cs h2]

theorem pyReplace_id {pat repl l : List Char} (h : containsSub pat l = false) :
    pyReplace pat repl l = l :=
  pyReplaceAux_id pat repl l.length l h

/-! ### Variant-pattern lemmas -/

theorem matchVarAt_of_req {lit : List Char} {dOpt : Bool} {l : List Char} {n : Nat}
    (h : matchVarReqAt lit dOpt l = some n) : matchVarAt lit dOpt l = some n := by
  cases l with
  | nil => simp [matchVarReqAt] at h
  | cons c cs =>
    by_cases hd : isVarDelim c = true
    · simp only [matchVarReqAt, hd, if_true] at h
      simp only [matchVarAt, hd, if_true]
      exact h
    · simp [matchVarReqAt, hd] at h

theorem searchVar_of_req {lit : List Char} {dOpt : Bool} :
    ∀ l, searchVarReq lit dOpt l = true → searchVar lit dOpt l = true := by
  intro l
  induction l with
  | nil => simp [searchVarReq]
  | cons c cs ih =>
    intro h
    rw [searchVarReq, Bool.or_eq_true] at h
    rw [searchVar, Bool.or_eq_true]
    rcases h with h | h
    · left
      rw [Option.isSome_iff_exists] at h
      obtain ⟨n, hn⟩ := h
      rw [matchVarAt_of_req hn]
      rfl
    · exact Or.inr (ih h)

theorem matchesAny_of_delimSuffix {name : List Char} (h : hasDelimOutlinedSuffix name = true) :
    matchesAnyVariantPat name = true := by
  simp only [hasDelimOutlinedSuffix, Bool.or_eq_true] at h
  simp only [matchesAnyVariantPat, Bool.or_eq_true]
  rcases h with ((h | h) | h) | h
  · exact Or.inl (Or.inl (Or.inl (searchVar_of_req _ h)))
  · exact Or.inl (Or.inl (Or.inr (searchVar_of_req _ h)))
  · exact Or.inl (Or.inr (searchVar_of_req _ h))
  · exact Or.inr (searchVar_of_req _ h)

theorem check_outlined_of_delimSuffix {name : List Char} (h : hasDelimOutlinedSuffix name = true) :
    check_outlined_variant name = true := by
  simp only [hasDelimOutlinedSuffix, Bool.or_eq_true] at h
  simp only [check_outlined_variant, Bool.or_eq_true]
  rcases h with ((h | h) | h) | h
  · exact Or.inl (Or.inl (Or.inl (Or.inl h)))
  · exact Or.inl (Or.inl (Or.inl (Or.inr h)))
  · exact Or.inl (Or.inl (Or.inr h))
  · exact Or.inl (Or.inr h)

theorem determine_variant_snd_true {name : List Char} (h : matchesAnyVariantPat name = true) :
    (determine_variant name).2 = true := by
  by_cases g1 : searchVar litOutline true name = true
  · simp [determine_variant, g1]
  by_cases g2 : searchVar litOutline false name = true
  · simp [determine_variant, g1, g2]
  by_cases g3 : searchVar litLine false name = true
  · simp [determine_variant, g1, g2, g3]
  by_cases g4 : searchVar litStroke false name = true
  · simp [determine_variant, g1, g2, g3, g4]
  · exfalso
    simp [matchesAnyVariantPat, g1, g2, g3, g4] at h

/-! ### Path shape of tag-based extraction -/

theorem xmlScanAux_path :
    ∀ fuel sct l, ∀ r ∈ xmlScanAux fuel sct l, r.path = r.sect ++ slashC :: r.name := by
  intro fuel
  induction fuel with
  | zero =>
    intro sct l r h
    cases l <;> simp [xmlScanAux] at h
  | succ n ih =>
    intro sct l r h
    cases l with
    | nil => simp [xmlScanAux] at h
    | cons c cs =>
      rw [xmlScanAux] at h
      rcases htag : tryIconTag (c :: cs) with _ | ⟨nt, nm, nid, rest⟩
      · rw [htag] at h
        exact ih sct cs r h
      · rw [htag] at h
        simp only at h
        split at h
        · exact ih nm rest r h
        · split at h
          · rcases List.mem_cons.mp h with h | h
            · subst h
              rfl
            · exact ih sct rest r h
          · exact ih sct rest r h

/-! ### `extStrip` on dot-free input -/

theorem dot_not_suffix (pat : List Char) {l : List Char} (hp : ('.' : Char) ∈ pat)
    (h : ∀ c ∈ l, c.toNat ≠ 46) : pat.isSuffixOf (pyLower l) = false := by
  cases hq : pat.isSuffixOf (pyLower l)
  · rfl
  · exfalso
    have hs : pat <:+ pyLower l := List.isSuffixOf_iff_suffix.mp hq
    have hm : ('.' : Char) ∈ pyLower l := List.IsSuffix.mem hp hs
    obtain ⟨c, hc, heq⟩ := List.mem_map.mp hm
    exact h c hc (pyToLower_eq_dot heq)

theorem extStrip_id {l : List Char} (h : ∀ c ∈ l, c.toNat ≠ 46) : extStrip l = l := by
  simp [extStrip,
    dot_not_suffix litSvgExt (by decide) h,
    dot_not_suffix litPngExt (by decide) h,
    dot_not_suffix litJpgExt (by decide) h,
    dot_not_suffix (litSvgExt ++ [nlC]) (by decide) h,
    dot_not_suffix (litPngExt ++ [nlC]) (by decide) h,
    dot_not_suffix (litJpgExt ++ [nlC]) (by decide) h]

/-! ### `splitDelims` -/

theorem splitDelimsAux_token {t : List Char} (ht : ∀ c ∈ t, isVarDelim c = false) :
    ∀ acc r, splitDelimsAux false acc (t ++ r) = splitDelimsAux false (t.reverse ++ acc) r := by
  induction t with
  | nil => intro acc r; simp
  | cons c cs ih =>
    intro acc r
    have hc : isVarDelim c = false := ht c (by simp)
    rw [show ((c :: cs).reverse ++ acc) = cs.reverse ++ (c :: acc) from by simp]
    simp only [List.cons_append, splitDelimsAux, hc, Bool.false_eq_true, if_false]
    exact ih (fun x hx => ht x (by simp [hx])) (c :: acc) r

theorem splitDelims_nodelim {l : List Char} (h : ∀ c ∈ l, isVarDelim c = false) :
    splitDelims l = [l] := by
  have := splitDelimsAux_token h [] []
  rw [List.append_nil] at this
  rw [splitDelims, this]
  simp [splitDelimsAux]

theorem splitDelimsAux_true_head {c : Char} {cs : List Char} (hc : isVarDelim c = false)
    (acc : List Char) : splitDelimsAux true acc (c :: cs) = splitDelims (c :: cs) := by
  simp [splitDelimsAux, splitDelims, hc]

theorem joinHyphen_cons_head (ts : List (List Char)) (c : Char) (t : List Char) :
    ∃ rest, joinHyphen ((c :: t) :: ts) = c :: rest := by
  cases ts with
  | nil => exact ⟨t, rfl⟩
  | cons t' ts' => exact ⟨t ++ dashC :: joinHyphen (t' :: ts'), rfl⟩

theorem split_joinHyphen :
    ∀ ts : List (List Char), ts ≠ [] →
      (∀ t ∈ ts, t ≠ [] ∧ ∀ c ∈ t, isVarDelim c = false) →
      splitDelims (joinHyphen ts) = ts := by
  intro ts
  induction ts with
  | nil => intro h; exact absurd rfl h
  | cons t ts ih =>
    intro _ h
    obtain ⟨ht1, ht2⟩ := h t (by simp)
    cases ts with
    | nil => exact splitDelims_nodelim ht2
    | cons t' ts' =>
      show splitDelims (t ++ dashC :: joinHyphen (t' :: ts')) = t :: t' :: ts'
      rw [splitDelims, splitDelimsAux_token ht2 [] _]
      have hd : isVarDelim dashC = true := by decide
      rw [List.append_nil]
      simp only [splitDelimsAux, hd, if_true, Bool.false_eq_true, if_false, List.reverse_reverse]
      obtain ⟨hne', hch'⟩ := h t' (by simp)
      obtain ⟨c', t'', rfl⟩ : ∃ c' t'', t' = c' :: t'' := by
        cases t' with
        | nil => exact absurd rfl hne'
        | cons a b => exact ⟨a, b, rfl⟩
      obtain ⟨rest, hrest⟩ := joinHyphen_cons_head ts' c' t''
      rw [hrest, splitDelimsAux_true_head (hch' c' (by simp)) [], ← hrest]
      rw [ih (by simp) (fun x hx => h x (by simp [hx]))]

/-! ### `camelSub` -/

theorem camelSub_no_lower {l : List Char} (h : ∀ c ∈ l, isAsciiLower c = false) :
    camelSub l = l := by
  induction l with
  | nil => rfl
  | cons c cs ih =>
    cases cs with
    | nil => simp [camelSub]
    | cons c2 cs2 =>
      have h1 : isAsciiLower c = false := h c (by simp)
      have ih' := ih (fun x hx => h x (by simp [hx]))
      simp [camelSub, h1, ih']

theorem camelSub_all_lower {l : List Char} (h : ∀ c ∈ l, isAsciiLower c = true) :
    camelSub l = l := by
  induction l with
  | nil => rfl
  | cons c cs ih =>
    cases cs with
    | nil => simp [camelSub]
    | cons c2 cs2 =>
      have h2 : isAsciiUpper c2 = false := lower_not_upper (h c2 (by simp))
      have ih' := ih (fun x hx => h x (by simp [hx]))
      simp [camelSub, h2, ih']

theorem camelSub_lower_append {ls : List Char} (hls : ∀ c ∈ ls, isAsciiLower c = true)
    (hne : ls ≠ []) {u : Char} (hu : isAsciiUpper u = true) (r : List Char) :
    camelSub (ls ++ u :: r) = ls ++ spC :: u :: camelSub r := by
  induction ls with
  | nil => exact absurd rfl hne
  | cons c cs ih =>
    cases cs with
    | nil =>
      have hc := hls c (by simp)
      simp [camelSub, hc, hu]
    | cons c2 cs2 =>
      have hc2 : isAsciiUpper c2 = false := lower_not_upper (hls c2 (by simp))
      have ih' := ih (fun x hx => hls x (by simp [hx])) (by simp)
      simp only [List.cons_append, camelSub, hc2, Bool.and_false, Bool.false_eq_true, if_false]
      exact congrArg (List.cons c) ih'

theorem camelSub_blocks :
    ∀ bs : List (List Char),
      (∀ b ∈ bs, ∃ u ls, b = u :: ls ∧ isAsciiUpper u = true ∧ ls ≠ [] ∧
        ∀ c ∈ ls, isAsciiLower c = true) →
      ∀ ls : List Char, (∀ c ∈ ls, isAsciiLower c = true) → ls ≠ [] →
      camelSub (ls ++ bs.flatten) = ls ++ (bs.map (fun b => spC :: b)).flatten := by
  intro bs
  induction bs with
  | nil =>
    intro _ ls hls _
    simp [camelSub_all_lower hls]
  | cons b bs ih =>
    intro hwf ls hls hne
    obtain ⟨u, ls', rfl, hu, hne', hls'⟩ := hwf b (by simp)
    rw [show ls ++ ((u :: ls') :: bs).flatten = ls ++ u :: (ls' ++ bs.flatten) from by simp]
    rw [camelSub_lower_append hls hne hu]
    rw [ih (fun x hx => hwf x (by simp [hx])) ls' hls' hne']
    simp

/-! ### `wsSplit` -/

theorem wsSplitAux_token {t : List Char} (ht : ∀ c ∈ t, pyIsSpace c = false) :
    ∀ acc r, wsSplitAux acc (t ++ r) = wsSplitAux (t.reverse ++ acc) r := by
  induction t with
  | nil => intro acc r; simp
  | cons c cs ih =>
    intro acc r
    have hc : pyIsSpace c = false := ht c (by simp)
    rw [show ((c :: cs).reverse ++ acc) = cs.reverse ++ (c :: acc) from by simp]
    simp only [List.cons_append, wsSplitAux, hc, Bool.false_eq_true, if_false]
    exact ih (fun x hx => ht x (by simp [hx])) (c :: acc) r

theorem wsSplit_token {l : List Char} (h : ∀ c ∈ l, pyIsSpace c = false) (hne : l ≠ []) :
    wsSplit l = [l] := by
  have := wsSplitAux_token h [] []
  rw [List.append_nil] at this
  rw [wsSplit, this]
  simp [wsSplitAux, hne]

theorem wsSplit_blocks :
    ∀ bs : List (List Char), (∀ b ∈ bs, b ≠ [] ∧ ∀ c ∈ b, pyIsSpace c = false) →
      ∀ b : List Char, b ≠ [] → (∀ c ∈ b, pyIsSpace c = false) →
      wsSplit (b ++ (bs.map (fun x => spC :: x)).flatten) = b :: bs := by
  intro bs
  induction bs with
  | nil =>
    intro _ b hb hbs
    simp only [List.map_nil, List.flatten_nil, List.append_nil]
    exact wsSplit_token hbs hb
  | cons b' bs' ih =>
    intro hwf b hbne hbns
    obtain ⟨hbne', hbns'⟩ := hwf b' (by simp)
    have hsp : pyIsSpace spC = true := by decide
    rw [wsSplit, show (b ++ ((b' :: bs').map (fun x => spC :: x)).flatten) =
      b ++ (spC :: (b' ++ (bs'.map (fun x => spC :: x)).flatten)) from by simp]
    rw [wsSplitAux_token hbns]
    have hra : b.reverse.isEmpty = false := by
      simp [List.isEmpty_iff, hbne]
    simp only [wsSplitAux, hsp, if_true, hra, Bool.false_eq_true, if_false, List.append_nil,
      List.reverse_reverse]
    rw [← wsSplit, ih (fun x hx => hwf x (by simp [hx])) b' hbne' hbns']

/-! ### `pyCapitalize` -/

theorem map_pyToLower_id {l : List Char} (h : ∀ c ∈ l, isAsciiLower c = true) :
    l.map pyToLower = l := by
  rw [List.map_congr_left (fun a ha => pyToLower_of_lower (h a ha))]
  exact List.map_id l

theorem pyCapitalize_lower_word {c : Char} {cs : List Char}
    (hcs : ∀ x ∈ cs, isAsciiLower x = true) :
    pyCapitalize (c :: cs) = pyToUpper c :: cs := by
  simp [pyCapitalize, map_pyToLower_id hcs]

theorem pyCapitalize_block {u : Char} {ls : List Char} (hu : isAsciiUpper u = true)
    (hls : ∀ x ∈ ls, isAsciiLower x = true) : pyCapitalize (u :: ls) = u :: ls := by
  simp [pyCapitalize, pyToUpper_of_upper hu, map_pyToLower_id hls]

/-! ### `to_pascal_case` on joined lowercase words and on its own output -/

theorem mem_joinHyphen :
    ∀ ts : List (List Char), ∀ c : Char, c ∈ joinHyphen ts → c = dashC ∨ ∃ t ∈ ts, c ∈ t := by
  intro ts
  induction ts with
  | nil => intro c hc; simp [joinHyphen] at hc
  | cons t ts ih =>
    intro c hc
    cases ts with
    | nil => exact Or.inr ⟨t, by simp, hc⟩
    | cons t' ts' =>
      rw [show joinHyphen (t :: t' :: ts') = t ++ dashC :: joinHyphen (t' :: ts') from rfl] at hc
      rcases List.mem_append.mp hc with h | h
      · exact Or.inr ⟨t, by simp, h⟩
      · rcases List.mem_cons.mp h with h | h
        · exact Or.inl h
        · rcases ih c h with h | ⟨t2, ht2, hc2⟩
          · exact Or.inl h
          · exact Or.inr ⟨t2, by simp [ht2], hc2⟩

theorem tpc_of_lower_words (ts : List (List Char)) (hne : ts ≠ [])
    (hwf : ∀ t ∈ ts, 2 ≤ t.length ∧ ∀ c ∈ t, isAsciiLower c = true) :
    to_pascal_case (joinHyphen ts) = (ts.map pyCapitalize).flatten := by
  have hdot : ∀ c ∈ joinHyphen ts, c.toNat ≠ 46 := by
    intro c hc
    rcases mem_joinHyphen ts c hc with h | ⟨t, ht, hct⟩
    · subst h; decide
    · exact lower_ne_dot ((hwf t ht).2 c hct)
  have hsplit : splitDelims (joinHyphen ts) = ts := by
    apply split_joinHyphen ts hne
    intro t ht
    obtain ⟨hlen, hlow⟩ := hwf t ht
    refine ⟨?_, fun c hc => lower_not_delim (hlow c hc)⟩
    intro h
    subst h
    simp at hlen
  have hmap : ts.map (fun w => wsSplit (camelSub w)) = ts.map (fun w => [w]) := by
    apply List.map_congr_left
    intro t ht
    obtain ⟨hlen, hlow⟩ := hwf t ht
    have htne : t ≠ [] := by
      intro h
      subst h
      simp at hlen
    rw [camelSub_all_lower hlow, wsSplit_token (fun c hc => lower_not_space (hlow c hc)) htne]
  have hsingle : ∀ L : List (List Char), (L.map (fun w => [w])).flatten = L := by
    intro L
    induction L with
    | nil => rfl
    | cons x xs ihx => simp [ihx]
  have hfilter : ts.filter (fun w => !w.isEmpty) = ts := by
    rw [List.filter_eq_self]
    intro a ha
    obtain ⟨hlen, _⟩ := hwf a ha
    cases a with
    | nil => simp at hlen
    | cons => simp
  simp only [to_pascal_case]
  rw [extStrip_id hdot, hsplit, hmap, hsingle, hfilter]

theorem tpc_fixpoint_blocks (bs : List (List Char)) (hne : bs ≠ [])
    (hwf : ∀ b ∈ bs, ∃ u ls, b = u :: ls ∧ isAsciiUpper u = true ∧ ls ≠ [] ∧
      ∀ c ∈ ls, isAsciiLower c = true) :
    to_pascal_case bs.flatten = bs.flatten := by
  have hletter : ∀ c ∈ bs.flatten, isAsciiLower c = true ∨ isAsciiUpper c = true := by
    intro c hc
    obtain ⟨b, hb, hcb⟩ := List.mem_flatten.mp hc
    obtain ⟨u, ls, rfl, hu, _, hls⟩ := hwf b hb
    rcases List.mem_cons.mp hcb with h | h
    · subst h; exact Or.inr hu
    · exact Or.inl (hls c h)
  have hdot : ∀ c ∈ bs.flatten, c.toNat ≠ 46 := by
    intro c hc
    rcases hletter c hc with h | h
    · exact lower_ne_dot h
    · exact upper_ne_dot h
  have hnodelim : ∀ c ∈ bs.flatten, isVarDelim c = false := by
    intro c hc
    rcases hletter c hc with h | h
    · exact lower_not_delim h
    · exact upper_not_delim h
  obtain ⟨b0, bs', rfl⟩ : ∃ b0 bs', bs = b0 :: bs' := by
    cases bs with
    | nil => exact absurd rfl hne
    | cons a b => exact ⟨a, b, rfl⟩
  have hwf' : ∀ b ∈ bs', ∃ u ls, b = u :: ls ∧ isAsciiUpper u = true ∧ ls ≠ [] ∧
      ∀ c ∈ ls, isAsciiLower c = true := fun b hb => hwf b (by simp [hb])
  obtain ⟨u, ls, rfl, hu, hlsne, hls⟩ := hwf b0 (by simp)
  obtain ⟨c2, ls2, rfl⟩ : ∃ c2 ls2, ls = c2 :: ls2 := by
    cases ls with
    | nil => exact absurd rfl hlsne
    | cons a b => exact ⟨a, b, rfl⟩
  have hcamel : camelSub ((u :: c2 :: ls2) ++ bs'.flatten) =
      (u :: c2 :: ls2) ++ (bs'.map (fun b => spC :: b)).flatten := by
    have hul : isAsciiLower u = false := upper_not_lower hu
    simp only [List.cons_append, camelSub, hul, Bool.false_and, Bool.false_eq_true, if_false]
    exact congrArg (List.cons u) (camelSub_blocks bs' hwf' (c2 :: ls2) hls (by simp))
  have hwsblocks : ∀ b ∈ bs', b ≠ [] ∧ ∀ c ∈ b, pyIsSpace c = false := by
    intro b hb
    obtain ⟨u', ls', rfl, hu', _, hls'⟩ := hwf' b hb
    refine ⟨by simp, ?_⟩
    intro c hc
    rcases List.mem_cons.mp hc with h | h
    · subst h; exact upper_not_space hu'
    · exact lower_not_space (hls' c h)
  have hhdns : ∀ c ∈ u :: c2 :: ls2, pyIsSpace c = false := by
    intro c hc
    rcases List.mem_cons.mp hc with h | h
    · subst h; exact upper_not_space hu
    · exact lower_not_space (hls c h)
  have hws : wsSplit ((u :: c2 :: ls2) ++ (bs'.map (fun b => spC :: b)).flatten) =
      (u :: c2 :: ls2) :: bs' :=
    wsSplit_blocks bs' hwsblocks (u :: c2 :: ls2) (by simp) hhdns
  have hfilter : ((u :: c2 :: ls2) :: bs').filter (fun w => !w.isEmpty) =
      (u :: c2 :: ls2) :: bs' := by
    rw [List.filter_eq_self]
    intro a ha
    rcases List.mem_cons.mp ha with h | h
    · subst h; simp
    · obtain ⟨u', ls', rfl, _⟩ := hwf' a h
      simp
  have hcap : ((u :: c2 :: ls2) :: bs').map pyCapitalize = (u :: c2 :: ls2) :: bs' := by
    have : ∀ a ∈ (u :: c2 :: ls2) :: bs', pyCapitalize a = a := by
      intro a ha
      rcases List.mem_cons.mp ha with h | h
      · subst h
        exact pyCapitalize_block hu hls
      · obtain ⟨u', ls', rfl, hu', _, hls'⟩ := hwf' a h
        exact pyCapitalize_block hu' hls'
    rw [List.map_congr_left this]
    simp
  simp only [to_pascal_case]
  rw [extStrip_id hdot, splitDelims_nodelim hnodelim]
  simp only [List.map_cons, List.map_nil, List.flatten_cons, List.flatten_nil, List.append_nil]
  rw [hcamel, hws, hfilter, hcap]
  simp

/-! ## Claim theorems -/

/-- C1: the claim states that `optimize_svg` is idempotent for every input.
The code is not: the single-pass empty-group rewrite removes only the inner
of two nested empty groups, so a second application removes the group the
first one left behind.  At the failing input `exD1`, applying the pipeline
twice differs from applying it once. -/
theorem C1_normalize_not_idempotent :
    optimize_svg (optimize_svg exD1) ≠ optimize_svg exD1 := by decide

/-- C2 counterexample: canonicalization is not idempotent as claimed:
`to_pascal_case "a-b" = "AB"` but `to_pascal_case "AB" = "Ab"`, because
Python's `capitalize` lowercases every character after the first. -/
theorem C2_counterexample :
    to_pascal_case (to_pascal_case ( "a-b".data)) ≠ to_pascal_case ( "a-b".data) := by decide

/-- C2 (amended): `to_pascal_case` is idempotent on names whose
hyphen-separated tokens are lowercase ASCII words of length at least two;
in general re-application can lowercase letters (see `C2_counterexample`). -/
theorem C2_tpc_idempotent_on_lower_words (ts : List (List Char)) (hne : ts ≠ [])
    (hwf : ∀ t ∈ ts, 2 ≤ t.length ∧ ∀ c ∈ t, isAsciiLower c = true) :
    to_pascal_case (to_pascal_case (joinHyphen ts)) = to_pascal_case (joinHyphen ts) := by
  rw [tpc_of_lower_words ts hne hwf]
  apply tpc_fixpoint_blocks
  · simpa using hne
  · intro b hb
    obtain ⟨t, ht, rfl⟩ := List.mem_map.mp hb
    obtain ⟨hlen, hlow⟩ := hwf t ht
    obtain ⟨x, y, ys, rfl⟩ : ∃ x y ys, t = x :: y :: ys := by
      cases t with
      | nil => simp at hlen
      | cons a b2 =>
        cases b2 with
        | nil => simp at hlen
        | cons p q => exact ⟨a, p, q, rfl⟩
    rw [pyCapitalize_lower_word (fun z hz => hlow z (by simp [hz]))]
    exact ⟨pyToUpper x, y :: ys, rfl, upper_pyToUpper_of_lower (hlow x (by simp)), by simp,
      fun z hz => hlow z (by simp [hz])⟩

/-- C2 witness: the amended idempotence theorem at the concrete token list
`["ab", "cd"]`, i.e. at the name `"ab-cd"`. -/
theorem C2_witness :
    ([ "ab".data, "cd".data] ≠ ([] : List (List Char))) ∧
    (∀ t ∈ [ "ab".data, "cd".data], 2 ≤ t.length ∧ ∀ c ∈ t, isAsciiLower c = true) ∧
    to_pascal_case (to_pascal_case (joinHyphen [ "ab".data, "cd".data])) =
      to_pascal_case (joinHyphen [ "ab".data, "cd".data]) :=
  ⟨by decide, by decide, C2_tpc_idempotent_on_lower_words _ (by decide) (by decide)⟩

/-- C3 counterexample: on a valid document with source identifier
`"Home-Outlined"` and no override, the output name is not `"Home.svg"`. -/
theorem C3_counterexample :
    Option.map Prod.snd (process_icon_file exSvgDoc3 exStem3 none) ≠
      some ( "Home.svg".data) := by decide

/-- C3 (amended): `splitVariant` strips the variant suffix but also sets
`isOutlined = true`, and the processor re-appends the variant marker, so the
output name is `"HomeOutlined.svg"`, not `"Home.svg"`. -/
theorem C3_output_name_home_outlined :
    Option.map Prod.snd (process_icon_file exSvgDoc3 exStem3 none) =
      some ( "HomeOutlined.svg".data) := by decide

/-- C4 counterexample: the two pattern families differ: `"line"` matches
`determine_variant`'s delimiter-optional suffix pattern but not
`check_outlined_variant`'s delimiter-required one. -/
theorem C4_counterexample :
    (determine_variant ( "line".data)).2 = true ∧
    check_outlined_variant ( "line".data) = false := by decide

/-- C4 (amended): the two classifiers agree on every name that ends in a
delimiter-separated outlined suffix; in general they differ, because
`splitVariant` also accepts the bare suffix with no delimiter (e.g. `"line"`)
and does not recognise the leading `outline` pattern (e.g. `"outline-home"`). -/
theorem C4_agree_on_delimited_suffix (name : List Char)
    (h : hasDelimOutlinedSuffix name = true) :
    (determine_variant name).2 = check_outlined_variant name := by
  rw [determine_variant_snd_true (matchesAny_of_delimSuffix h), check_outlined_of_delimSuffix h]

/-- C4 witness: the agreement theorem at the name `"home-line"`. -/
theorem C4_witness :
    hasDelimOutlinedSuffix ( "home-line".data) = true ∧
    (determine_variant ( "home-line".data)).2 = check_outlined_variant ( "home-line".data) :=
  ⟨by decide, C4_agree_on_delimited_suffix _ (by decide)⟩

/-- C5 counterexample: `"home-"` matches none of the outlined patterns, yet
`determine_variant` does not return it unchanged: the unconditional
`strip('-_')` removes the trailing hyphen. -/
theorem C5_counterexample :
    matchesAnyVariantPat ( "home-".data) = false ∧
    determine_variant ( "home-".data) ≠ (( "home-".data), false) := by decide

/-- C5 (amended): when no outlined pattern matches, `determine_variant`
returns the name with leading and trailing `-`/`_` stripped (so the name is
returned unchanged exactly when it neither starts nor ends with `-` or `_`),
with `isOutlined = false`. -/
theorem C5_no_match_strips_delims (name : List Char)
    (h : matchesAnyVariantPat name = false) :
    determine_variant name = (stripDashUnder name, false) := by
  simp only [matchesAnyVariantPat, Bool.or_eq_false_iff] at h
  obtain ⟨⟨⟨h1, h2⟩, h3⟩, h4⟩ := h
  simp [determine_variant, h1, h2, h3, h4]

/-- C5 witness: the amended theorem at the name `"home"`. -/
theorem C5_witness :
    matchesAnyVariantPat ( "home".data) = false ∧
    determine_variant ( "home".data) = (stripDashUnder ( "home".data), false) :=
  ⟨by decide, C5_no_match_strips_delims _ (by decide)⟩

/-- C6 counterexample: with an empty current section the emitted path is
`"/icon-home"`, i.e. `"" + "/" + name` with a leading slash, not the bare
name as claimed. -/
theorem C6_counterexample :
    parse_xml_metadata exXml6 = [exRec6] ∧ exRec6.sect = [] ∧
    exRec6.path = slashC :: exRec6.name ∧ exRec6.path ≠ exRec6.name := by decide

/-- C6 (amended): every record emitted by tag-based extraction has
`path = section ++ "/" ++ name`; when the section is empty this yields a
path with a leading slash, never the bare name. -/
theorem C6_path_is_section_slash_name (content : List Char) (r : IconInfo)
    (h : r ∈ parse_xml_metadata content) : r.path = r.sect ++ slashC :: r.name :=
  xmlScanAux_path content.length [] content r h

/-- C6 witness: the path-shape theorem at the record extracted from `exXml6`. -/
theorem C6_witness :
    exRec6 ∈ parse_xml_metadata exXml6 ∧
    exRec6.path = exRec6.sect ++ slashC :: exRec6.name :=
  ⟨by decide, C6_path_is_section_slash_name exXml6 exRec6 (by decide)⟩

/-- C7 counterexample: `exJson7` is valid JSON (a list, not an object), so
`json.loads` succeeds and the parser returns the tree extractor's result `[]`
instead of falling back to tag-based extraction, whose result on the same raw
text is nonempty. -/
theorem C7_counterexample :
    parse_figma_metadata (some PyJson.nondict) exJson7 = [] ∧
    parse_xml_metadata exJson7 ≠ [] := by decide

/-- C7 (amended): the fallback to tag-based extraction happens only when
decoding raises (malformed input); an input that decodes to a non-object
value is fed to the tree extractor, which returns the empty sequence for a
non-dict.  Exactly one strategy runs, never a merge. -/
theorem C7_dispatch_on_decode :
    ∀ content : List Char,
      parse_figma_metadata none content = parse_xml_metadata content ∧
      parse_figma_metadata (some PyJson.nondict) content = [] :=
  fun _ => ⟨rfl, rfl⟩

/-- C8: extraction of the two-node tree (`PAGE "Icons"` containing
`COMPONENT "icon-home"` with identifier `"1:1"`) from empty path and section
context yields exactly one record with section `"Icons"`, path
`"Icons/icon-home"` and `isOutlined = false`. -/
theorem C8_tree_extraction_example : parse_json_metadata exTree8 [] [] = [exRec8] := by decide

/-- C9 counterexample: the claim says every character after a token's first
letter keeps its casing; the code applies Python `capitalize`, which
lowercases the tail: `to_pascal_case "AB" = "Ab"`. -/
theorem C9_counterexample :
    to_pascal_case ( "AB".data) = ( "Ab".data) ∧ ( "Ab".data) ≠ ( "AB".data) := by decide

/-- C9 (amended): a token of consecutive uppercase letters is rendered with
only its first letter uppercase: the first character is kept and every
following character is forced to lowercase, not preserved. -/
theorem C9_uppercase_tail_lowercased (c : Char) (cs : List Char)
    (h1 : isAsciiUpper c = true) (h2 : ∀ x ∈ cs, isAsciiUpper x = true) :
    to_pascal_case (c :: cs) = c :: cs.map pyToLower := by
  have hall : ∀ x ∈ c :: cs, isAsciiUpper x = true := by
    intro x hx
    rcases List.mem_cons.mp hx with h | h
    · subst h; exact h1
    · exact h2 x h
  have hdot : ∀ x ∈ c :: cs, x.toNat ≠ 46 := fun x hx => upper_ne_dot (hall x hx)
  have hnodelim : ∀ x ∈ c :: cs, isVarDelim x = false := fun x hx => upper_not_delim (hall x hx)
  have hnolower : ∀ x ∈ c :: cs, isAsciiLower x = false := fun x hx => upper_not_lower (hall x hx)
  have hnospace : ∀ x ∈ c :: cs, pyIsSpace x = false := fun x hx => upper_not_space (hall x hx)
  simp only [to_pascal_case]
  rw [extStrip_id hdot, splitDelims_nodelim hnodelim]
  simp only [List.map_cons, List.map_nil, List.flatten_cons, List.flatten_nil, List.append_nil]
  rw [camelSub_no_lower hnolower, wsSplit_token hnospace (by simp)]
  simp [pyCapitalize, pyToUpper_of_upper h1]

/-- C9 witness: the amended theorem at the token `"AB"`. -/
theorem C9_witness :
    isAsciiUpper ('A' : Char) = true ∧ (∀ x ∈ [ 'B'], isAsciiUpper x = true) ∧
    to_pascal_case ([ 'A', 'B']) = 'A' :: ([ 'B'].map pyToLower) :=
  ⟨by decide, by decide, C9_uppercase_tail_lowercased 'A' [ 'B'] (by decide) (by decide)⟩

/-- C10 counterexample: `exD10` contains no `"<svg "` and no `fill=`, yet the
output of `optimize_svg` contains an injected `fill=`: comment removal joins
`"<svg"` with the following space, creating `"<svg "` before the final
default-fill injection runs. -/
theorem C10_counterexample :
    containsSub litSvgSp exD10 = false ∧ containsSub litFillEq exD10 = false ∧
    containsSub litFillEq (optimize_svg exD10) = true := by decide

/-- C10 (amended): the `viewBox`/`width`/`height` injections are
`str.replace` of the literal `"<svg "` performed before any removal step, so
on a document without `"<svg "` (and without those attributes) the size phase
is the identity; the default-fill injection, however, runs after the removal
steps, which can create `"<svg "`, so the fill attribute can still be
injected (see `C10_counterexample`). -/
theorem C10_size_injections_noop (d : List Char)
    (h1 : containsSub litSvgSp d = false) (h2 : containsSub litViewBoxWord d = false)
    (h3 : containsSub litWidthEq d = false) (h4 : containsSub litHeightEq d = false) :
    svgSizePhase d = d := by
  simp only [svgSizePhase]
  rw [if_neg (show ¬(containsSub litViewBoxWord d = true) from by simp [h2]), pyReplace_id h1,
    if_neg (show ¬(containsSub litWidthEq d = true) from by simp [h3]), pyReplace_id h1,
    if_neg (show ¬(containsSub litHeightEq d = true) from by simp [h4])]
  exact pyReplace_id h1

/-- C10 witness: the size-phase theorem at the document `"<p/>"`. -/
theorem C10_witness :
    containsSub litSvgSp ( "<p/>".data) = false ∧
    containsSub litViewBoxWord ( "<p/>".data) = false ∧
    containsSub litWidthEq ( "<p/>".data) = false ∧
    containsSub litHeightEq ( "<p/>".data) = false ∧
    svgSizePhase ( "<p/>".data) = ( "<p/>".data) :=
  ⟨by decide, by decide, by decide, by decide,
    C10_size_injections_noop _ (by decide) (by decide) (by decide) (by decide)⟩

end IconSync
